import Mathlib

/-!
Simba CAN driver core (`src/drivers/can.c`).

A shallow embedding of the five entry points of `can.c` together with the
kernel objects they are built on (a receive queue and a transmit channel) and
the port layer they delegate to.

* C pointers to mutable objects become explicit state passing: a function that
  receives `struct can_driver_t *drv_p` takes the context and returns the
  context it leaves behind, next to its C return value.
* Everything outside the core (peripheral registers, port-private data) is one
  value `hw : H` that is threaded through every port operation.
* The port layer, textually included through `can_port.i`, is a parameter.
* `queue_*` and `chan_*` live in the kernel of the repository, not in `can.c`;
  they are modelled from the specification and marked as such.
* The interrupt context that fills the receive queue is a sequence of calls of
  the producer entry point between the calls of the application.
* `uint32_t speed` and the `size_t` sizes are natural numbers and the `int` and
  `ssize_t` results are integers: the core does no arithmetic on them, it only
  passes them on, and every count is bounded by a size it was given.
-/

namespace Simba

/-! ## Data model -/

/-- Modelled from the spec: `struct can_frame_t` (declared in `can.h`), one bus
message: identifier, data length code, payload bytes and the two flags. The
core only copies frames, it never looks inside. -/
structure can_frame_t where
  id : Nat
  dlc : Nat
  data : List Nat
  extended : Bool
  rtr : Bool
deriving DecidableEq, Repr, Inhabited

/-- Modelled from the spec: `struct queue_t` (kernel), the receive queue. It
wraps the caller's buffer (`buf_p`, an address) and its byte capacity `size`;
`ring` is that buffer seen as slots of whole frames; `head` is advanced by the
consumer only and `tail` by the producer only (free running counters, the slot
of counter `i` is `i % capacity`); `dropped` counts the frames refused because
the ring was full. -/
structure queue_t where
  buf_p : Nat
  size : Nat
  ring : List can_frame_t
  head : Nat
  tail : Nat
  dropped : Nat
deriving DecidableEq, Repr

/-- Modelled from the spec: the send primitive a channel refers to. It is
handed one frame, either accepts it (`true`) or rejects it (`false`), and may
change the hardware. In `can.c` the port's `write_cb` is cast to the callback
type of the channel before it is stored. -/
abbrev chan_write_fn_t (H : Type) := can_frame_t → H → Bool × H

/-- The read callback slot of a channel (always `NULL` in `can.c`). -/
abbrev chan_read_fn_t (H : Type) := Nat → H → List can_frame_t × H

/-- The size callback slot of a channel (always `NULL` in `can.c`). -/
abbrev chan_size_fn_t (H : Type) := H → Nat

/-- Modelled from the spec: `chan_t` (kernel), the transmit channel. It is
stateless beyond the references it was constructed with. -/
structure chan_t (H : Type) where
  read : Option (chan_read_fn_t H)
  write : chan_write_fn_t H
  size : Option (chan_size_fn_t H)

/-- Modelled from the spec: `struct can_driver_t` (declared in `can.h`), the
driver context: the device reference, the transmit channel `chout` and the
receive queue `chin`. `Dev` is the type of device references. -/
structure can_driver_t (Dev H : Type) where
  dev_p : Dev
  chout : chan_t H
  chin : queue_t

/-- Outcome of a lifecycle or write call: the C return value, the context the
call leaves behind `drv_p`, and the hardware state. -/
structure can_ret (Dev H : Type) where
  ret : Int
  drv : can_driver_t Dev H
  hw : H

/-- Outcome of `can_read`: the C return value, the frames copied to `frame_p`
(in copy order) and the context left behind. -/
structure can_read_ret (Dev H : Type) where
  ret : Int
  frames : List can_frame_t
  drv : can_driver_t Dev H

/-- What `simba.h` and `can_port.i` supply to `can.c`: the size in bytes of a
frame, the three port operations and the port's write primitive. A port
operation receives the context (and may change it) and the hardware. -/
structure can_port_i (Dev H : Type) where
  frame_size : Nat
  can_port_init : can_driver_t Dev H → Dev → Nat → H → can_ret Dev H
  can_port_start : can_driver_t Dev H → H → can_ret Dev H
  can_port_stop : can_driver_t Dev H → H → can_ret Dev H
  write_cb : chan_write_fn_t H

/-! ## Kernel objects -/

/-- Modelled from the spec: `queue_init` (kernel). The queue is constructed
around the buffer `buf_p` of `size` bytes; its capacity is the number of whole
frames that fit, `size / frame_size`; it starts empty with no drops. The C call
has the arguments queue, buffer and size; `frame_size` stands for the compile
time constant `sizeof(struct can_frame_t)`. The old content of the buffer is
never read before it is overwritten; the slots start as the default frame. -/
def queue_init (frame_size : Nat) (buf_p : Nat) (size : Nat) : queue_t :=
  { buf_p := buf_p
    size := size
    ring := List.replicate (size / frame_size) default
    head := 0
    tail := 0
    dropped := 0 }

/-- Capacity of the queue in frames. -/
def queue_capacity (q : queue_t) : Nat := q.ring.length

/-- Number of frames queued: produced and not yet consumed. -/
def queue_used (q : queue_t) : Nat := q.tail - q.head

/-- Modelled from the spec: the producer entry point of the receive queue (the
port layer's `receive_callback`, interrupt context). One frame is enqueued at
`tail`; when the ring is full the frame is dropped and counted. -/
def queue_put (q : queue_t) (f : can_frame_t) : queue_t :=
  if queue_used q < queue_capacity q then
    { q with ring := q.ring.set (q.tail % queue_capacity q) f, tail := q.tail + 1 }
  else
    { q with dropped := q.dropped + 1 }

/-- Outcome of `queue_read`: count, frames copied out, queue left behind. -/
structure queue_read_ret where
  ret : Int
  frames : List can_frame_t
  queue : queue_t
deriving DecidableEq, Repr

/-- Modelled from the spec: `queue_read` (kernel), the consumer. It copies out
the oldest frame and advances `head`, up to `size` times, stops as soon as the
queue is empty (it does not block) and returns the number of frames copied. -/
def queue_read (q : queue_t) : Nat → queue_read_ret
  | 0 => { ret := 0, frames := [], queue := q }
  | size + 1 =>
    if q.head < q.tail then
      let f := q.ring.getD (q.head % queue_capacity q) default
      let r := queue_read { q with head := q.head + 1 } size
      { ret := r.ret + 1, frames := f :: r.frames, queue := r.queue }
    else
      { ret := 0, frames := [], queue := q }

/-- Modelled from the spec: `chan_init` (kernel). The channel keeps the three
callbacks it is given. -/
def chan_init {H : Type} (read : Option (chan_read_fn_t H)) (write : chan_write_fn_t H)
    (size : Option (chan_size_fn_t H)) : chan_t H :=
  { read := read, write := write, size := size }

/-- Outcome of `chan_write`: count accepted, channel left behind, hardware. -/
structure chan_write_ret (H : Type) where
  ret : Int
  chan : chan_t H
  hw : H

/-- The submission loop of `chan_write`: frames are handed to the primitive
one at a time, in order; `n` counts the frames accepted so far; the loop ends
at the first rejection. -/
def chan_write_loop {H : Type} (write : chan_write_fn_t H) :
    List can_frame_t → Nat → H → Int × H
  | [], n, hw => ((n : Int), hw)
  | f :: fs, n, hw =>
    match write f hw with
    | (true, hw1) => chan_write_loop write fs (n + 1) hw1
    | (false, hw1) => ((n : Int), hw1)

/-- Modelled from the spec: `chan_write` (kernel). The first `size` frames at
`buf_p` are forwarded one at a time to the channel's write primitive; the
result is the number accepted; nothing is submitted after a rejection and
nothing is retried. The channel itself is left as it was. The caller owes
`size` frames at `buf_p`; a shorter list is forwarded as far as it goes. -/
def chan_write {H : Type} (chan : chan_t H) (buf_p : List can_frame_t) (size : Nat)
    (hw : H) : chan_write_ret H :=
  let r := chan_write_loop chan.write (buf_p.take size) 0 hw
  { ret := r.1, chan := chan, hw := r.2 }

/-! ## `can.c` -/

section core
variable {Dev H : Type}

/-- The function `can_module_init`: nothing to do, reports success (0). -/
def can_module_init : Int := 0

/-- The function `can_init`: store the device reference, construct the transmit channel
around `write_cb` and the receive queue around `rxbuf_p`/`size`, then let the
port layer configure the hardware and return its result. -/
def can_init (P : can_port_i Dev H) (drv_p : can_driver_t Dev H) (dev_p : Dev)
    (speed : Nat) (rxbuf_p : Nat) (size : Nat) (hw : H) : can_ret Dev H :=
  let drv1 : can_driver_t Dev H := { drv_p with dev_p := dev_p }
  let drv2 : can_driver_t Dev H := { drv1 with chout := chan_init none P.write_cb none }
  let drv3 : can_driver_t Dev H :=
    { drv2 with chin := queue_init P.frame_size rxbuf_p size }
  P.can_port_init drv3 dev_p speed hw

/-- The function `can_start`: the port layer's start operation, nothing else. -/
def can_start (P : can_port_i Dev H) (drv_p : can_driver_t Dev H) (hw : H) :
    can_ret Dev H :=
  P.can_port_start drv_p hw

/-- The function `can_stop`: the port layer's stop operation, nothing else. -/
def can_stop (P : can_port_i Dev H) (drv_p : can_driver_t Dev H) (hw : H) :
    can_ret Dev H :=
  P.can_port_stop drv_p hw

/-- The function `can_read`: `queue_read` on the receive queue of the context. -/
def can_read (drv_p : can_driver_t Dev H) (size : Nat) : can_read_ret Dev H :=
  let r := queue_read drv_p.chin size
  { ret := r.ret, frames := r.frames, drv := { drv_p with chin := r.queue } }

/-- The function `can_write`: `chan_write` on the transmit channel of the context. -/
def can_write (drv_p : can_driver_t Dev H) (frame_p : List can_frame_t) (size : Nat)
    (hw : H) : can_ret Dev H :=
  let r := chan_write drv_p.chout frame_p size hw
  { ret := r.ret, drv := { drv_p with chout := r.chan }, hw := r.hw }

/-- The port layer's `receive_callback`: a frame received by the hardware is
pushed into the receive queue of the context. -/
def receive_callback (drv_p : can_driver_t Dev H) (f : can_frame_t) :
    can_driver_t Dev H :=
  { drv_p with chin := queue_put drv_p.chin f }

/-- The context as `can_init` has set it up at the moment it calls the port
layer: the three assignments of its body, written out. -/
def can_init_ctx (P : can_port_i Dev H) (dev_p : Dev) (rxbuf_p : Nat) (size : Nat) :
    can_driver_t Dev H :=
  { dev_p := dev_p
    chout := chan_init none P.write_cb none
    chin := queue_init P.frame_size rxbuf_p size }

end core

/-! ## Observations used in the statements -/

/-- Frames held by the queue, oldest first: the slots from `head` up to
`tail`, each taken modulo the capacity. -/
def queue_contents (q : queue_t) : List can_frame_t :=
  (List.range (queue_used q)).map
    (fun i => q.ring.getD ((q.head + i) % queue_capacity q) default)

/-- Well-formed queue: the consumer is not ahead of the producer and no more
frames are queued than the ring has slots. -/
def queue_wf (q : queue_t) : Prop :=
  q.head ≤ q.tail ∧ q.tail - q.head ≤ queue_capacity q

instance (q : queue_t) : Decidable (queue_wf q) := by
  unfold queue_wf; infer_instance

/-- The producer delivers the frames `fs`, one after the other. -/
def queue_deliver (q : queue_t) (fs : List can_frame_t) : queue_t :=
  fs.foldl queue_put q

/-- Hardware state after the frames `fs` were handed to the write primitive
one at a time, in order. -/
def chan_submit {H : Type} (write : chan_write_fn_t H) : List can_frame_t → H → H
  | [], hw => hw
  | f :: fs, hw => chan_submit write fs (write f hw).2

/-- The primitive accepts every frame of `fs` when they are handed to it one
at a time, in order, starting from `hw`. -/
def chan_accepts {H : Type} (write : chan_write_fn_t H) : List can_frame_t → H → Bool
  | [], _ => true
  | f :: fs, hw => (write f hw).1 && chan_accepts write fs (write f hw).2

section observe
variable {Dev H : Type}

/-- The port layer delivers the frames `fs` to the context, one at a time. -/
def can_deliver (drv_p : can_driver_t Dev H) (fs : List can_frame_t) :
    can_driver_t Dev H :=
  fs.foldl receive_callback drv_p

/-- Successive `can_read` calls with the sizes `ns`: the frames each call
copies out, call by call. -/
def can_read_seq (drv_p : can_driver_t Dev H) : List Nat → List (List can_frame_t)
  | [] => []
  | n :: ns => (can_read drv_p n).frames :: can_read_seq (can_read drv_p n).drv ns

end observe


/-- One step of the data path as seen by the receive queue: the port layer
delivers a frame, or the application reads up to `n` frames. -/
inductive can_io where
  | rx (f : can_frame_t)
  | read (n : Nat)
deriving DecidableEq, Repr

/-- Frames delivered by the producer during the steps `es`, in order. -/
def can_io_produced : List can_io → List can_frame_t
  | [] => []
  | can_io.rx f :: es => f :: can_io_produced es
  | can_io.read _ :: es => can_io_produced es

section io
variable {Dev H : Type}

/-- Run the steps `es` on a context: all frames handed to the application by
the `can_read` calls, in order, and the context left behind. -/
def can_io_run (drv_p : can_driver_t Dev H) : List can_io → List can_frame_t × can_driver_t Dev H
  | [] => ([], drv_p)
  | can_io.rx f :: es => can_io_run (receive_callback drv_p f) es
  | can_io.read n :: es =>
    ((can_read drv_p n).frames ++ (can_io_run (can_read drv_p n).drv es).1,
      (can_io_run (can_read drv_p n).drv es).2)

end io

/-! ## Lifecycle bookkeeping of the specification

`can.c` keeps no lifecycle state. The four states of the specification are
tracked here next to the context, from the lifecycle calls made and their
results, so that statements about "a started context" or "a stopped context"
can be written down. A result of 0 is success, as for `can_module_init`. -/

/-- The four lifecycle states of the specification. -/
inductive lifecycle_t where
  | Uninitialized
  | Initialized
  | Started
  | Stopped
deriving DecidableEq, Repr

/-- After `init`: `Initialized` on success, the prior state otherwise. -/
def lifecycle_init (s : lifecycle_t) (rc : Int) : lifecycle_t :=
  if rc = 0 then lifecycle_t.Initialized else s

/-- After `start`: `Started` only on success. -/
def lifecycle_start (s : lifecycle_t) (rc : Int) : lifecycle_t :=
  if rc = 0 then lifecycle_t.Started else s

/-- After `stop`: `Stopped` (a context is stopped when `stop` was the last
lifecycle call). -/
def lifecycle_stop (_s : lifecycle_t) (_rc : Int) : lifecycle_t :=
  lifecycle_t.Stopped

/-- A driver context in its environment, with the lifecycle state the
specification associates with it. -/
structure can_system (Dev H : Type) where
  drv : can_driver_t Dev H
  hw : H
  state : lifecycle_t

section system
variable {Dev H : Type}

/-- The application calls `can_init`. -/
def sys_init (P : can_port_i Dev H) (s : can_system Dev H) (dev_p : Dev) (speed : Nat)
    (rxbuf_p : Nat) (size : Nat) : can_system Dev H :=
  let r := can_init P s.drv dev_p speed rxbuf_p size s.hw
  { drv := r.drv, hw := r.hw, state := lifecycle_init s.state r.ret }

/-- The application calls `can_start`. -/
def sys_start (P : can_port_i Dev H) (s : can_system Dev H) : can_system Dev H :=
  let r := can_start P s.drv s.hw
  { drv := r.drv, hw := r.hw, state := lifecycle_start s.state r.ret }

/-- The application calls `can_stop`. -/
def sys_stop (P : can_port_i Dev H) (s : can_system Dev H) : can_system Dev H :=
  let r := can_stop P s.drv s.hw
  { drv := r.drv, hw := r.hw, state := lifecycle_stop s.state r.ret }

/-- The hardware receives the frames `fs`. -/
def sys_rx (s : can_system Dev H) (fs : List can_frame_t) : can_system Dev H :=
  { s with drv := can_deliver s.drv fs }

end system

/-! ## A concrete port layer, for evaluation -/

/-- A small peripheral: whether it runs, its bit rate, the free slots of its
transmit mailbox, the frames it was handed, and how often each lifecycle
operation of the port layer was entered. -/
structure demo_hw where
  running : Bool
  speed : Nat
  tx_room : Nat
  sent : List can_frame_t
  offered : List can_frame_t
  inits : Nat
  starts : Nat
  stops : Nat
deriving DecidableEq, Repr

/-- The write primitive of the demo port: a frame is accepted while the
transmit mailbox has room; every frame offered is recorded. -/
def demo_write_cb : chan_write_fn_t demo_hw := fun f hw =>
  if hw.tx_room = 0 then
    (false, { hw with offered := hw.offered ++ [f] })
  else
    (true, { hw with tx_room := hw.tx_room - 1, sent := hw.sent ++ [f],
                     offered := hw.offered ++ [f] })

/-- A port layer with 16-byte frames. Its init rejects the speed 0 (result -1)
and leaves the context as it received it; its start refuses (result -1) a
peripheral whose bit rate was never set and otherwise switches it on; its stop
switches it off. Every operation counts its invocations. -/
def demo_port : can_port_i Nat demo_hw where
  frame_size := 16
  can_port_init := fun drv _dev speed hw =>
    { ret := if speed = 0 then -1 else 0
      drv := drv
      hw := { hw with speed := speed, inits := hw.inits + 1 } }
  can_port_start := fun drv hw =>
    if hw.speed = 0 then
      { ret := -1, drv := drv, hw := { hw with starts := hw.starts + 1 } }
    else
      { ret := 0, drv := drv, hw := { hw with running := true, starts := hw.starts + 1 } }
  can_port_stop := fun drv hw =>
    { ret := 0, drv := drv, hw := { hw with running := false, stops := hw.stops + 1 } }
  write_cb := demo_write_cb

/-- The demo port with a stop operation that is idempotent: switching off a
peripheral that is off changes nothing. -/
def quiet_port : can_port_i Nat demo_hw :=
  { demo_port with
    can_port_stop := fun drv hw =>
      { ret := 0, drv := drv, hw := { hw with running := false } } }

/-- Power-on state of the demo peripheral, with room for two frames. -/
def demo_hw0 : demo_hw :=
  { running := false, speed := 0, tx_room := 2, sent := [], offered := [],
    inits := 0, starts := 0, stops := 0 }

/-- A frame with identifier `n` and one payload byte. -/
def demo_frame (n : Nat) : can_frame_t :=
  { id := n, dlc := 1, data := [n], extended := false, rtr := false }

/-- The memory of a context before `can_init`: device 0, a zero-capacity
queue, and a channel whose primitive rejects everything. -/
def demo_drv0 : can_driver_t Nat demo_hw :=
  { dev_p := 0
    chout := { read := none, write := fun _ hw => (false, hw), size := none }
    chin := { buf_p := 0, size := 0, ring := [], head := 0, tail := 0, dropped := 0 } }

/-- The system before any lifecycle call. -/
def demo_sys0 : can_system Nat demo_hw :=
  { drv := demo_drv0, hw := demo_hw0, state := lifecycle_t.Uninitialized }

/-- The frames A, B, C, D, E of the scenario. -/
def demo_frames : List can_frame_t :=
  [demo_frame 10, demo_frame 11, demo_frame 12, demo_frame 13, demo_frame 14]

/-- The demo port with a start operation that fails (result -1) after it has
overwritten the device reference stored in the context. -/
def faulty_port : can_port_i Nat demo_hw :=
  { demo_port with
    can_port_start := fun drv hw =>
      { ret := -1, drv := { drv with dev_p := 0 }, hw := hw } }

/-- The system after `can_init` for device 7 with a 64-byte buffer at address
4096: room for four 16-byte frames. -/
def demo_initialized : can_system Nat demo_hw :=
  sys_init demo_port demo_sys0 7 500000 4096 64

/-- The initialised system after `can_start`. -/
def demo_started : can_system Nat demo_hw :=
  sys_start demo_port demo_initialized

/-- The scenario: initialised, started, and the five frames delivered. -/
def demo_sys1 : can_system Nat demo_hw :=
  sys_rx demo_started demo_frames

/-- The scenario system after `can_stop`. -/
def demo_sys2 : can_system Nat demo_hw :=
  sys_stop demo_port demo_sys1

/-- The system after a `can_init` that the port layer rejected (speed 0): no
lifecycle call has succeeded. -/
def demo_rejected : can_system Nat demo_hw :=
  sys_init demo_port demo_sys0 9 0 8192 32

/-! ## Facts about the receive queue -/

/-- Two counters less than one ring length apart fall into different slots. -/
theorem mod_ne_of_lt_of_sub_lt {a b c : Nat} (hab : a < b) (hc : b - a < c) :
    a % c ≠ b % c := by
  intro h
  have h0 : (b - a) % c = 0 := Nat.sub_mod_eq_zero_of_mod_eq h.symm
  have h1 : (b - a) % c = b - a := Nat.mod_eq_of_lt hc
  omega

/-- The queue holds as many frames as `queue_used` says. -/
theorem queue_contents_length (q : queue_t) :
    (queue_contents q).length = queue_used q := by
  simp [queue_contents]

/-- A queue is empty right after `queue_init`. -/
theorem queue_init_contents (fsz buf size : Nat) :
    queue_contents (queue_init fsz buf size) = [] := by
  simp [queue_contents, queue_init, queue_used]

/-- A queue is well formed right after `queue_init`. -/
theorem queue_init_wf (fsz buf size : Nat) : queue_wf (queue_init fsz buf size) := by
  simp [queue_wf, queue_init]

/-- Producing into a queue with room appends the frame at the back and keeps
everything else: no slot still in use is overwritten. -/
theorem queue_put_room (q : queue_t) (f : can_frame_t) (hwf : queue_wf q)
    (hroom : queue_used q < queue_capacity q) :
    queue_contents (queue_put q f) = queue_contents q ++ [f]
      ∧ queue_wf (queue_put q f)
      ∧ queue_capacity (queue_put q f) = queue_capacity q
      ∧ queue_used (queue_put q f) = queue_used q + 1
      ∧ (queue_put q f).dropped = q.dropped := by
  obtain ⟨hle, hcap⟩ := hwf
  unfold queue_used queue_capacity at hroom
  have hput : queue_put q f =
      { q with ring := q.ring.set (q.tail % q.ring.length) f, tail := q.tail + 1 } := by
    simp [queue_put, queue_used, queue_capacity, hroom]
  rw [hput]
  refine ⟨?_, ?_, ?_, ?_, ?_⟩
  · have hu : q.tail + 1 - q.head = (q.tail - q.head) + 1 := by omega
    simp only [queue_contents, queue_used, queue_capacity, List.length_set, hu,
      List.range_succ, List.map_append, List.map_cons, List.map_nil]
    congr 1
    · apply List.map_congr_left
      intro i hi
      have hi' : i < q.tail - q.head := by simpa using hi
      have hne : q.tail % q.ring.length ≠ (q.head + i) % q.ring.length := by
        apply Ne.symm
        apply mod_ne_of_lt_of_sub_lt <;> omega
      simp [List.getD_eq_getElem?_getD, List.getElem?_set_ne hne]
    · have hidx : q.head + (q.tail - q.head) = q.tail := by omega
      have hlt : q.tail % q.ring.length < q.ring.length := Nat.mod_lt _ (by omega)
      simp [hidx, List.getD_eq_getElem?_getD, List.getElem?_set, hlt]
  · simp [queue_wf, queue_capacity]; omega
  · simp [queue_capacity]
  · simp [queue_used]; omega
  · rfl

/-- Producing into a full queue only counts a drop. -/
theorem queue_put_full (q : queue_t) (f : can_frame_t)
    (hfull : ¬ queue_used q < queue_capacity q) :
    queue_put q f = { q with dropped := q.dropped + 1 } := by
  simp [queue_put, hfull]

/-- The oldest frame of a non-empty queue is the slot at `head`. -/
theorem queue_contents_cons (q : queue_t) (h : q.head < q.tail) :
    queue_contents q =
      q.ring.getD (q.head % queue_capacity q) default
        :: queue_contents { q with head := q.head + 1 } := by
  have hu : q.tail - q.head = (q.tail - (q.head + 1)) + 1 := by omega
  simp only [queue_contents, queue_used, queue_capacity]
  rw [hu, List.range_succ_eq_map]
  simp only [List.map_cons, List.map_map, Nat.add_zero]
  congr 1
  apply List.map_congr_left
  intro i _
  simp only [Function.comp, Nat.succ_eq_add_one]
  congr 2
  omega

/-- A queue whose consumer has caught up holds nothing. -/
theorem queue_contents_nil (q : queue_t) (h : ¬ q.head < q.tail) :
    queue_contents q = [] := by
  have hu : q.tail - q.head = 0 := by omega
  simp [queue_contents, queue_used, hu]

/-- What `queue_read` returns: the count, the frames, and the queue with only
`head` advanced. -/
theorem queue_read_spec (n : Nat) : ∀ q : queue_t,
    (queue_read q n).ret = ((min n (queue_used q) : Nat) : Int)
      ∧ (queue_read q n).frames = (queue_contents q).take n
      ∧ (queue_read q n).queue = { q with head := q.head + min n (queue_used q) } := by
  induction n with
  | zero => intro q; simp [queue_read]
  | succ n ih =>
    intro q
    by_cases h : q.head < q.tail
    · obtain ⟨h1, h2, h3⟩ := ih { q with head := q.head + 1 }
      have hu : queue_used q = queue_used { q with head := q.head + 1 } + 1 := by
        simp only [queue_used]; omega
      rw [queue_contents_cons q h]
      simp only [queue_read, h, if_true, h1, h2, h3, List.take_succ_cons]
      refine ⟨?_, trivial, ?_⟩
      · rw [hu]; simp only [Nat.add_min_add_right]; push_cast; rfl
      · rw [hu]; simp only [Nat.add_min_add_right]
        congr 1; omega
    · have hu : queue_used q = 0 := by simp only [queue_used]; omega
      simp [queue_read, h, hu, queue_contents_nil q h]

/-- Advancing `head` by `k` removes the `k` oldest frames. -/
theorem queue_contents_advance (k : Nat) : ∀ q : queue_t,
    queue_contents { q with head := q.head + k } = (queue_contents q).drop k := by
  induction k with
  | zero => intro q; simp
  | succ k ih =>
    intro q
    by_cases h : q.head < q.tail
    · rw [queue_contents_cons q h, List.drop_succ_cons, ← ih]
      simp only [Nat.add_assoc, Nat.add_comm 1 k]
    · have h' : ¬ (q.head + (k + 1)) < q.tail := by omega
      rw [queue_contents_nil q h]
      exact queue_contents_nil _ h'

/-- Delivering `fs` to a well-formed queue appends as many frames as there is
room for, counts the others as dropped, and keeps the queue well formed. -/
theorem queue_deliver_spec (fs : List can_frame_t) : ∀ q : queue_t, queue_wf q →
    queue_contents (queue_deliver q fs)
        = queue_contents q ++ fs.take (queue_capacity q - queue_used q)
      ∧ (queue_deliver q fs).dropped
        = q.dropped + (fs.length - (queue_capacity q - queue_used q))
      ∧ queue_wf (queue_deliver q fs) := by
  induction fs with
  | nil => intro q hwf; simp [queue_deliver, hwf]
  | cons f fs ih =>
    intro q hwf
    have hstep : queue_deliver q (f :: fs) = queue_deliver (queue_put q f) fs := rfl
    rw [hstep]
    by_cases hroom : queue_used q < queue_capacity q
    · obtain ⟨hc, hw, hcap, hus, hd⟩ := queue_put_room q f hwf hroom
      obtain ⟨i1, i2, i3⟩ := ih (queue_put q f) hw
      have hr : queue_capacity q - queue_used q
          = (queue_capacity q - (queue_used q + 1)) + 1 := by omega
      refine ⟨?_, ?_, i3⟩
      · rw [i1, hc, hcap, hus, hr, List.take_succ_cons]; simp
      · rw [i2, hcap, hus, hd]; simp only [List.length_cons]; omega
    · rw [queue_put_full q f hroom]
      have hwf' : queue_wf { q with dropped := q.dropped + 1 } := hwf
      obtain ⟨i1, i2, i3⟩ := ih { q with dropped := q.dropped + 1 } hwf'
      have hz : queue_capacity q - queue_used q = 0 := by omega
      refine ⟨?_, ?_, i3⟩
      · rw [i1]
        show queue_contents q ++ _ = _
        have : queue_capacity { q with dropped := q.dropped + 1 }
            - queue_used { q with dropped := q.dropped + 1 } = 0 := hz
        rw [this, hz]; simp
      · rw [i2]
        have : queue_capacity { q with dropped := q.dropped + 1 }
            - queue_used { q with dropped := q.dropped + 1 } = 0 := hz
        rw [this, hz]; simp only [List.length_cons]; omega

/-! ## Facts about the transmit channel -/

section chan
variable {H : Type}

/-- The submission loop never counts down and never counts more than it was
given. -/
theorem chan_write_loop_bounds (w : chan_write_fn_t H) (fs : List can_frame_t) :
    ∀ (n : Nat) (hw : H), (n : Int) ≤ (chan_write_loop w fs n hw).1
      ∧ (chan_write_loop w fs n hw).1 ≤ ((n + fs.length : Nat) : Int) := by
  induction fs with
  | nil => intro n hw; simp [chan_write_loop]
  | cons f fs ih =>
    intro n hw
    rcases hr : w f hw with ⟨b, hw1⟩
    cases b
    · simp only [chan_write_loop, hr, List.length_cons]; constructor <;> omega
    · obtain ⟨h1, h2⟩ := ih (n + 1) hw1
      simp only [chan_write_loop, hr, List.length_cons]
      constructor
      · have : (n : Int) ≤ ((n + 1 : Nat) : Int) := by omega
        exact le_trans this h1
      · have e : n + 1 + fs.length = n + (fs.length + 1) := by omega
        rw [← e]; exact h2

/-- The submission loop on frames `a`, all accepted, followed by a rejected
frame `f`: the count is the length of `a` and nothing after `f` is submitted. -/
theorem chan_write_loop_reject (w : chan_write_fn_t H) (f : can_frame_t)
    (b : List can_frame_t) (a : List can_frame_t) :
    ∀ (n : Nat) (hw : H), chan_accepts w a hw = true →
      (w f (chan_submit w a hw)).1 = false →
      chan_write_loop w (a ++ f :: b) n hw
        = (((n + a.length : Nat) : Int), (w f (chan_submit w a hw)).2) := by
  induction a with
  | nil =>
    intro n hw _ hrej
    rcases hr : w f hw with ⟨r, hw1⟩
    simp only [chan_submit, hr] at hrej
    subst hrej
    simp [chan_write_loop, hr, chan_submit]
  | cons x a ih =>
    intro n hw hacc hrej
    rcases hr : w x hw with ⟨r, hw1⟩
    simp only [chan_accepts, hr, Bool.and_eq_true] at hacc
    obtain ⟨hx, hacc'⟩ := hacc
    subst hx
    simp only [chan_submit, hr] at hrej
    have := ih (n + 1) hw1 hacc' hrej
    simp only [List.cons_append, chan_write_loop, hr, chan_submit, List.length_cons]
    have e : n + 1 + a.length = n + (a.length + 1) := by omega
    rw [← e]; exact this

/-- The submission loop on frames that are all accepted. -/
theorem chan_write_loop_accept (w : chan_write_fn_t H) (a : List can_frame_t) :
    ∀ (n : Nat) (hw : H), chan_accepts w a hw = true →
      chan_write_loop w a n hw = (((n + a.length : Nat) : Int), chan_submit w a hw) := by
  induction a with
  | nil => intro n hw _; simp [chan_write_loop, chan_submit]
  | cons x a ih =>
    intro n hw hacc
    rcases hr : w x hw with ⟨r, hw1⟩
    simp only [chan_accepts, hr, Bool.and_eq_true] at hacc
    obtain ⟨hx, hacc'⟩ := hacc
    subst hx
    have := ih (n + 1) hw1 hacc'
    simp only [chan_write_loop, hr, chan_submit, List.length_cons]
    have e : n + 1 + a.length = n + (a.length + 1) := by omega
    rw [← e]; exact this

/-- Submitting `a ++ b` is submitting `a`, then `b`. -/
theorem chan_submit_append (w : chan_write_fn_t H) (a b : List can_frame_t) :
    ∀ hw : H, chan_submit w (a ++ b) hw = chan_submit w b (chan_submit w a hw) := by
  induction a with
  | nil => intro hw; rfl
  | cons x a ih => intro hw; simp [chan_submit, ih]

/-- A primitive that logs each frame handed to it has logged the frames
submitted, in order. -/
theorem chan_submit_log (w : chan_write_fn_t H) (log : H → List can_frame_t)
    (hlog : ∀ f h, log (w f h).2 = log h ++ [f]) (fs : List can_frame_t) :
    ∀ hw : H, log (chan_submit w fs hw) = log hw ++ fs := by
  induction fs with
  | nil => intro hw; simp [chan_submit]
  | cons x a ih => intro hw; simp [chan_submit, ih, hlog]

/-- Splitting the first `size` elements of a list at an index `m` below `size`. -/
theorem take_split_at {α : Type} (l : List α) (m size : Nat) (x : α) (hm : m < size)
    (hx : l[m]? = some x) :
    l.take size = l.take m ++ x :: (l.take size).drop (m + 1)
      ∧ l.take (m + 1) = l.take m ++ [x] := by
  have hlen : m < l.length := by
    rcases Nat.lt_or_ge m l.length with h | h
    · exact h
    · rw [List.getElem?_eq_none h] at hx; cases hx
  have hxe : l[m] = x := by
    rw [List.getElem?_eq_getElem hlen] at hx; exact Option.some.inj hx
  constructor
  · have hlen' : m < (l.take size).length := by simp; omega
    have h1 := (List.take_append_drop m (l.take size)).symm
    rw [List.drop_eq_getElem_cons hlen', List.take_take, Nat.min_eq_left (Nat.le_of_lt hm)] at h1
    rw [List.getElem_take] at h1
    rw [hxe] at h1
    exact h1
  · rw [List.take_succ, hx]; rfl

end chan

/-! ## Facts about the data path of the driver -/

section can_lemmas
variable {Dev H : Type}

/-- Delivery touches the receive queue only. -/
theorem can_deliver_fields (fs : List can_frame_t) : ∀ drv : can_driver_t Dev H,
    (can_deliver drv fs).chin = queue_deliver drv.chin fs
      ∧ (can_deliver drv fs).dev_p = drv.dev_p
      ∧ (can_deliver drv fs).chout = drv.chout := by
  induction fs with
  | nil => intro drv; exact ⟨rfl, rfl, rfl⟩
  | cons f fs ih =>
    intro drv
    have h := ih (receive_callback drv f)
    exact h

/-- Successive reads hand out the queue from the front. -/
theorem can_read_seq_flatten (ns : List Nat) : ∀ drv : can_driver_t Dev H,
    (can_read_seq drv ns).flatten = (queue_contents drv.chin).take ns.sum := by
  induction ns with
  | nil => intro drv; simp [can_read_seq]
  | cons n ns ih =>
    intro drv
    obtain ⟨_, h2, h3⟩ := queue_read_spec n drv.chin
    have hq : (can_read drv n).drv.chin
        = { drv.chin with head := drv.chin.head + min n (queue_used drv.chin) } := h3
    have hdrop : queue_contents (can_read drv n).drv.chin
        = (queue_contents drv.chin).drop n := by
      rw [hq, queue_contents_advance]
      rcases Nat.le_total n (queue_used drv.chin) with h | h
      · rw [Nat.min_eq_left h]
      · rw [Nat.min_eq_right h, List.drop_of_length_le, List.drop_of_length_le]
        · rw [queue_contents_length]; exact h
        · rw [queue_contents_length]
    have hf : (can_read drv n).frames = (queue_contents drv.chin).take n := h2
    simp only [can_read_seq, List.flatten_cons, List.sum_cons, ih, hdrop, hf, List.take_add]

end can_lemmas

section io_lemmas
variable {Dev H : Type}

/-- After `queue_read` of `n` the queue holds what it held, less the first `n`. -/
theorem queue_read_rest (q : queue_t) (n : Nat) :
    queue_contents (queue_read q n).queue = (queue_contents q).drop n := by
  rw [(queue_read_spec n q).2.2, queue_contents_advance]
  rcases Nat.le_total n (queue_used q) with h | h
  · rw [Nat.min_eq_left h]
  · rw [Nat.min_eq_right h, List.drop_of_length_le, List.drop_of_length_le]
    · rw [queue_contents_length]; exact h
    · rw [queue_contents_length]

/-- Reading keeps the queue well formed and the drop counter as it is. -/
theorem queue_read_keeps (q : queue_t) (n : Nat) (hwf : queue_wf q) :
    queue_wf (queue_read q n).queue ∧ (queue_read q n).queue.dropped = q.dropped := by
  rw [(queue_read_spec n q).2.2]
  obtain ⟨h1, h2⟩ := hwf
  refine ⟨⟨?_, ?_⟩, rfl⟩
  · show q.head + min n (queue_used q) ≤ q.tail
    unfold queue_used; omega
  · show q.tail - (q.head + min n (queue_used q)) ≤ queue_capacity q
    unfold queue_used; unfold queue_capacity at *; omega

/-- The drop counter never goes down when a frame is produced. -/
theorem queue_put_dropped_le (q : queue_t) (f : can_frame_t) :
    q.dropped ≤ (queue_put q f).dropped := by
  unfold queue_put
  split
  · exact Nat.le_refl _
  · exact Nat.le_succ _

/-- The drop counter never goes down along a run. -/
theorem can_io_run_dropped_le (es : List can_io) : ∀ drv : can_driver_t Dev H,
    drv.chin.dropped ≤ (can_io_run drv es).2.chin.dropped := by
  induction es with
  | nil => intro drv; exact Nat.le_refl _
  | cons e es ih =>
    intro drv
    cases e with
    | rx f =>
      exact Nat.le_trans (queue_put_dropped_le drv.chin f) (ih (receive_callback drv f))
    | read n =>
      have h := ih (can_read drv n).drv
      have hd : (can_read drv n).drv.chin.dropped = drv.chin.dropped := by
        show (queue_read drv.chin n).queue.dropped = _
        rw [(queue_read_spec n drv.chin).2.2]
      rw [hd] at h
      exact h

/-- Along a run without a drop on a well-formed queue: frames read so far,
then frames queued now, are the frames queued at first, then the frames
produced. -/
theorem can_io_run_fifo (es : List can_io) : ∀ drv : can_driver_t Dev H,
    queue_wf drv.chin →
    (can_io_run drv es).2.chin.dropped = drv.chin.dropped →
    (can_io_run drv es).1 ++ queue_contents (can_io_run drv es).2.chin
      = queue_contents drv.chin ++ can_io_produced es := by
  induction es with
  | nil => intro drv _ _; simp [can_io_run, can_io_produced]
  | cons e es ih =>
    intro drv hwf hdrop
    cases e with
    | rx f =>
      have hmono := can_io_run_dropped_le es (receive_callback drv f)
      by_cases hroom : queue_used drv.chin < queue_capacity drv.chin
      · obtain ⟨hc, hw, _, _, hd⟩ := queue_put_room drv.chin f hwf hroom
        have hd1 : (receive_callback drv f).chin.dropped = drv.chin.dropped := hd
        have h := ih (receive_callback drv f) hw (by rw [hd1]; exact hdrop)
        simp only [can_io_run, can_io_produced]
        rw [h]
        show queue_contents (queue_put drv.chin f) ++ _ = _
        rw [hc]; simp
      · exfalso
        have hfull : (receive_callback drv f).chin.dropped = drv.chin.dropped + 1 := by
          show (queue_put drv.chin f).dropped = _
          rw [queue_put_full drv.chin f hroom]
        have hd : (can_io_run drv (can_io.rx f :: es)).2.chin.dropped
            = (can_io_run (receive_callback drv f) es).2.chin.dropped := rfl
        omega
    | read n =>
      obtain ⟨hw, hd⟩ := queue_read_keeps drv.chin n hwf
      have h := ih (can_read drv n).drv hw (by
        rw [show (can_read drv n).drv.chin.dropped = drv.chin.dropped from hd]; exact hdrop)
      have hf : (can_read drv n).frames = (queue_contents drv.chin).take n :=
        (queue_read_spec n drv.chin).2.1
      have hr : queue_contents (can_read drv n).drv.chin = (queue_contents drv.chin).drop n :=
        queue_read_rest drv.chin n
      simp only [can_io_run, can_io_produced, List.append_assoc]
      rw [h, hr, hf, ← List.append_assoc, List.take_append_drop]

end io_lemmas

section stop_lemmas
variable {Dev H : Type}

/-- A second `can_stop` after a `can_stop` that succeeded, for a port layer
whose stop, once it has succeeded, succeeds again and changes nothing: the
second call returns 0 and leaves everything as the first call left it. -/
theorem can_stop_again_after_success (P : can_port_i Dev H) (s : can_system Dev H)
    (hfirst : (can_stop P s.drv s.hw).ret = 0)
    (hidem : ∀ (d : can_driver_t Dev H) (h : H), (P.can_port_stop d h).ret = 0 →
      P.can_port_stop (P.can_port_stop d h).drv (P.can_port_stop d h).hw
        = { ret := 0, drv := (P.can_port_stop d h).drv, hw := (P.can_port_stop d h).hw }) :
    (can_stop P (sys_stop P s).drv (sys_stop P s).hw).ret = 0
      ∧ sys_stop P (sys_stop P s) = sys_stop P s := by
  have h2 : can_stop P (sys_stop P s).drv (sys_stop P s).hw
      = { ret := 0, drv := (sys_stop P s).drv, hw := (sys_stop P s).hw } :=
    hidem s.drv s.hw hfirst
  refine ⟨by rw [h2], ?_⟩
  show ({ drv := (can_stop P (sys_stop P s).drv (sys_stop P s).hw).drv,
          hw := (can_stop P (sys_stop P s).drv (sys_stop P s).hw).hw,
          state := lifecycle_t.Stopped } : can_system Dev H) = sys_stop P s
  rw [h2]
  rfl

end stop_lemmas

/-! ## The claims -/

section claims
variable {Dev H : Type}

/-- C1: each of `can_init`, `can_start` and `can_stop` is one invocation of its
port operation and nothing after it: the whole outcome of the call (return
value, context, hardware) is the outcome of `can_port_init`, `can_port_start`,
`can_port_stop` applied once, for every port layer and whatever value the port
returns. In particular any count of invocations the port layer keeps goes up
by exactly one per call. -/
theorem can_lifecycle_returns_port_result (P : can_port_i Dev H)
    (drv : can_driver_t Dev H) (dev : Dev) (speed rxbuf size : Nat) (hw : H) :
    can_init P drv dev speed rxbuf size hw
        = P.can_port_init (can_init_ctx P dev rxbuf size) dev speed hw
      ∧ (can_init P drv dev speed rxbuf size hw).ret
        = (P.can_port_init (can_init_ctx P dev rxbuf size) dev speed hw).ret
      ∧ can_start P drv hw = P.can_port_start drv hw
      ∧ (can_start P drv hw).ret = (P.can_port_start drv hw).ret
      ∧ can_stop P drv hw = P.can_port_stop drv hw
      ∧ (can_stop P drv hw).ret = (P.can_port_stop drv hw).ret
      ∧ ∀ calls : H → Nat,
          ((∀ d v s h, calls (P.can_port_init d v s h).hw = calls h + 1) →
            calls (can_init P drv dev speed rxbuf size hw).hw = calls hw + 1)
          ∧ ((∀ d h, calls (P.can_port_start d h).hw = calls h + 1) →
            calls (can_start P drv hw).hw = calls hw + 1)
          ∧ ((∀ d h, calls (P.can_port_stop d h).hw = calls h + 1) →
            calls (can_stop P drv hw).hw = calls hw + 1) :=
  ⟨rfl, rfl, rfl, rfl, rfl, rfl, fun _ =>
    ⟨fun h => h _ _ _ _, fun h => h _ _, fun h => h _ _⟩⟩

/-- C1 on the demo port: a failing init (speed 0) returns the port's -1, and
each lifecycle call advances the port's own invocation counter by one. -/
theorem can_lifecycle_returns_port_result_witness :
    (can_init demo_port demo_started.drv 7 0 4096 64 demo_started.hw).ret = -1
      ∧ (can_init demo_port demo_started.drv 7 0 4096 64 demo_started.hw).hw.inits
          = demo_started.hw.inits + 1
      ∧ (can_start demo_port demo_started.drv demo_started.hw).hw.starts
          = demo_started.hw.starts + 1
      ∧ (can_stop demo_port demo_started.drv demo_started.hw).hw.stops
          = demo_started.hw.stops + 1 :=
  ⟨(can_lifecycle_returns_port_result demo_port demo_started.drv 7 0 4096 64
      demo_started.hw).2.1,
    ((can_lifecycle_returns_port_result demo_port demo_started.drv 7 0 4096 64
      demo_started.hw).2.2.2.2.2.2 (fun h => h.inits)).1 (fun _ _ _ _ => rfl),
    ((can_lifecycle_returns_port_result demo_port demo_started.drv 7 0 4096 64
      demo_started.hw).2.2.2.2.2.2 (fun h => h.starts)).2.1 (fun _ h => by
        show (demo_port.can_port_start _ h).hw.starts = h.starts + 1
        unfold demo_port; dsimp only; split <;> rfl),
    ((can_lifecycle_returns_port_result demo_port demo_started.drv 7 0 4096 64
      demo_started.hw).2.2.2.2.2.2 (fun h => h.stops)).2.2 (fun _ _ => rfl)⟩

end claims

section claims2
variable {Dev H : Type}

/-- C6: `can_init` hands the port layer a context that holds the given device
reference, a receive queue constructed around exactly the caller's buffer and
byte size, and a transmit channel whose write primitive is the port layer's
`write_cb`; it passes the same device reference, the same speed and the
hardware state it received to `can_port_init`, and the context and hardware it
returns are the ones `can_port_init` leaves. The device reference is a value of
an arbitrary type `Dev`: the core stores and forwards it, nothing else. -/
theorem can_init_wires_context (P : can_port_i Dev H) (drv : can_driver_t Dev H)
    (dev : Dev) (speed rxbuf size : Nat) (hw : H) :
    can_init P drv dev speed rxbuf size hw
        = P.can_port_init (can_init_ctx P dev rxbuf size) dev speed hw
      ∧ (can_init_ctx P dev rxbuf size).dev_p = dev
      ∧ (can_init_ctx P dev rxbuf size).chin = queue_init P.frame_size rxbuf size
      ∧ (can_init_ctx P dev rxbuf size).chin.buf_p = rxbuf
      ∧ (can_init_ctx P dev rxbuf size).chin.size = size
      ∧ queue_capacity (can_init_ctx P dev rxbuf size).chin = size / P.frame_size
      ∧ queue_contents (can_init_ctx P dev rxbuf size).chin = []
      ∧ (can_init_ctx P dev rxbuf size).chout.write = P.write_cb
      ∧ (can_init_ctx P dev rxbuf size).chout.read = none
      ∧ (can_init_ctx P dev rxbuf size).chout.size = none
      ∧ ((P.can_port_init (can_init_ctx P dev rxbuf size) dev speed hw).drv
            = can_init_ctx P dev rxbuf size →
          (can_init P drv dev speed rxbuf size hw).drv.dev_p = dev
            ∧ (can_init P drv dev speed rxbuf size hw).drv.chin.buf_p = rxbuf
            ∧ (can_init P drv dev speed rxbuf size hw).drv.chin.size = size
            ∧ (can_init P drv dev speed rxbuf size hw).drv.chout.write = P.write_cb)
      ∧ ((P.can_port_init (can_init_ctx P dev rxbuf size) dev speed hw).hw = hw →
          (can_init P drv dev speed rxbuf size hw).hw = hw) := by
  refine ⟨rfl, rfl, rfl, rfl, rfl, ?_, ?_, rfl, rfl, rfl, ?_, ?_⟩
  · simp [can_init_ctx, queue_capacity, queue_init]
  · exact queue_init_contents _ _ _
  · intro h
    have e : (can_init P drv dev speed rxbuf size hw).drv = can_init_ctx P dev rxbuf size := h
    rw [e]
    exact ⟨rfl, rfl, rfl, rfl⟩
  · intro h; exact h

/-- C6 on the demo port, whose init leaves the context alone: after `can_init`
for device 7 with the buffer at 4096 of 64 bytes the context holds device 7,
a queue around (4096, 64) and the demo write primitive. -/
theorem can_init_wires_context_witness :
    (can_init demo_port demo_drv0 7 500000 4096 64 demo_hw0).drv.dev_p = 7
      ∧ (can_init demo_port demo_drv0 7 500000 4096 64 demo_hw0).drv.chin.buf_p = 4096
      ∧ (can_init demo_port demo_drv0 7 500000 4096 64 demo_hw0).drv.chin.size = 64
      ∧ (can_init demo_port demo_drv0 7 500000 4096 64 demo_hw0).drv.chout.write
          = demo_port.write_cb :=
  (can_init_wires_context demo_port demo_drv0 7 500000 4096 64 demo_hw0).2.2.2.2.2.2.2.2.2.2.1
    rfl

/-- C7 as stated fails. On the scenario context (device 7, four frames queued)
`can_init` for device 9 with the speed 0 is rejected by the port layer
(result -1), yet the context now holds device 9 and an empty queue around the
new buffer. With a port layer whose failing start overwrites the device
reference, `can_start` returns -1 and the context is changed as well. -/
theorem can_lifecycle_failure_changes_context :
    (can_init demo_port demo_sys1.drv 9 0 8192 32 demo_sys1.hw).ret = -1
      ∧ demo_sys1.drv.dev_p = 7
      ∧ (can_init demo_port demo_sys1.drv 9 0 8192 32 demo_sys1.hw).drv.dev_p = 9
      ∧ queue_contents demo_sys1.drv.chin = demo_frames.take 4
      ∧ queue_contents (can_init demo_port demo_sys1.drv 9 0 8192 32 demo_sys1.hw).drv.chin = []
      ∧ demo_sys1.drv.chin.buf_p = 4096
      ∧ (can_init demo_port demo_sys1.drv 9 0 8192 32 demo_sys1.hw).drv.chin.buf_p = 8192
      ∧ (can_start faulty_port demo_sys1.drv demo_sys1.hw).ret = -1
      ∧ (can_start faulty_port demo_sys1.drv demo_sys1.hw).drv.dev_p = 0 := by
  decide

/-- C7, amended: the core neither restores nor changes anything after the port
operation. After `can_init` the context is the one `can_port_init` leaves of
the freshly set up context (new device reference, new channel, new empty
queue), also when it fails; so when a failing `can_port_init` leaves that
context alone, `can_init` fails with it and the context is the freshly set up
one. After `can_start` and `can_stop` the context is the one the port
operation leaves of the caller's context; so when the failing port operation
leaves the context as it was, so does `can_start` or `can_stop`. -/
theorem can_lifecycle_failure_context (P : can_port_i Dev H) (drv : can_driver_t Dev H)
    (dev : Dev) (speed rxbuf size : Nat) (hw : H) :
    (can_init P drv dev speed rxbuf size hw).drv
        = (P.can_port_init (can_init_ctx P dev rxbuf size) dev speed hw).drv
      ∧ ((P.can_port_init (can_init_ctx P dev rxbuf size) dev speed hw).ret ≠ 0 →
          (P.can_port_init (can_init_ctx P dev rxbuf size) dev speed hw).drv
            = can_init_ctx P dev rxbuf size →
          (can_init P drv dev speed rxbuf size hw).ret ≠ 0
            ∧ (can_init P drv dev speed rxbuf size hw).drv = can_init_ctx P dev rxbuf size)
      ∧ (can_start P drv hw).drv = (P.can_port_start drv hw).drv
      ∧ ((P.can_port_start drv hw).ret ≠ 0 → (P.can_port_start drv hw).drv = drv →
          (can_start P drv hw).ret ≠ 0 ∧ (can_start P drv hw).drv = drv)
      ∧ (can_stop P drv hw).drv = (P.can_port_stop drv hw).drv
      ∧ ((P.can_port_stop drv hw).ret ≠ 0 → (P.can_port_stop drv hw).drv = drv →
          (can_stop P drv hw).ret ≠ 0 ∧ (can_stop P drv hw).drv = drv) :=
  ⟨rfl, fun h1 h2 => ⟨h1, h2⟩, rfl, fun h1 h2 => ⟨h1, h2⟩, rfl,
    fun h1 h2 => ⟨h1, h2⟩⟩

/-- C7 amended, on the demo port: init with the speed 0 on the scenario context
fails and leaves the freshly set up context; start on a peripheral without bit
rate fails and leaves the context as it was. -/
theorem can_lifecycle_failure_context_witness :
    ((can_init demo_port demo_sys1.drv 9 0 8192 32 demo_sys1.hw).ret ≠ 0
        ∧ (can_init demo_port demo_sys1.drv 9 0 8192 32 demo_sys1.hw).drv
          = can_init_ctx demo_port 9 8192 32)
      ∧ ((can_start demo_port demo_rejected.drv demo_rejected.hw).ret ≠ 0
        ∧ (can_start demo_port demo_rejected.drv demo_rejected.hw).drv
          = demo_rejected.drv) :=
  ⟨(can_lifecycle_failure_context demo_port demo_sys1.drv 9 0 8192 32 demo_sys1.hw).2.1
      (by decide) rfl,
    (can_lifecycle_failure_context demo_port demo_rejected.drv 9 0 8192 32
      demo_rejected.hw).2.2.2.1 (by decide) rfl⟩

end claims2

section claims3
variable {Dev H : Type}

/-- C2 as stated fails: there is no state gate. The scenario system after
`can_stop` is `Stopped`, yet `can_read` returns 1 (a count, not an error),
hands out the oldest frame and advances the queue, and `can_write` returns 1
after the write primitive was handed the frame. On the system whose only
lifecycle call was a rejected `can_init` (`Uninitialized`) `can_write` likewise
reaches the write primitive and returns 1, and `can_read` returns the count
0. -/
theorem can_read_write_not_state_gated :
    demo_sys2.state = lifecycle_t.Stopped
      ∧ (can_read demo_sys2.drv 1).ret = 1
      ∧ (can_read demo_sys2.drv 1).frames = [demo_frame 10]
      ∧ demo_sys2.drv.chin.head = 0
      ∧ (can_read demo_sys2.drv 1).drv.chin.head = 1
      ∧ demo_sys2.hw.offered = []
      ∧ (can_write demo_sys2.drv demo_frames 1 demo_sys2.hw).ret = 1
      ∧ (can_write demo_sys2.drv demo_frames 1 demo_sys2.hw).hw.offered = [demo_frame 10]
      ∧ demo_rejected.state = lifecycle_t.Uninitialized
      ∧ demo_rejected.hw.offered = []
      ∧ (can_read demo_rejected.drv 1).ret = 0
      ∧ (can_write demo_rejected.drv demo_frames 1 demo_rejected.hw).ret = 1
      ∧ (can_write demo_rejected.drv demo_frames 1 demo_rejected.hw).hw.offered
          = [demo_frame 10] := by
  decide

/-- C2, amended: `can_read` and `can_write` are not gated on the lifecycle
state and have no `InvalidState` result. For a context in any lifecycle state,
`Uninitialized` and `Stopped` included, `can_read` returns what `queue_read`
returns on the receive queue, a count that is never negative, and leaves the
queue as `queue_read` leaves it; `can_write` returns what `chan_write` returns
on the transmit channel, a count that is never negative, and leaves the
hardware as the write primitive leaves it. -/
theorem can_read_write_any_state (s : can_system Dev H) (frames : List can_frame_t)
    (size : Nat) :
    (can_read s.drv size).ret = (queue_read s.drv.chin size).ret
      ∧ (can_read s.drv size).frames = (queue_read s.drv.chin size).frames
      ∧ (can_read s.drv size).drv.chin = (queue_read s.drv.chin size).queue
      ∧ 0 ≤ (can_read s.drv size).ret
      ∧ (can_write s.drv frames size s.hw).ret = (chan_write s.drv.chout frames size s.hw).ret
      ∧ (can_write s.drv frames size s.hw).hw = (chan_write s.drv.chout frames size s.hw).hw
      ∧ 0 ≤ (can_write s.drv frames size s.hw).ret := by
  refine ⟨rfl, rfl, rfl, ?_, rfl, rfl, ?_⟩
  · show 0 ≤ (queue_read s.drv.chin size).ret
    rw [(queue_read_spec size s.drv.chin).1]
    exact Int.ofNat_nonneg _
  · have h := (chan_write_loop_bounds s.drv.chout.write (frames.take size) 0 s.hw).1
    exact h

/-- C3: when the write primitive accepts the first `m` frames and rejects frame
`m+1` (the frame `f` at index `m`, with `m` below the number `size` of frames
submitted), `can_write` returns `m`; the hardware is left as after handing
the primitive exactly the first `m+1` frames, one at a time and in the
caller's order, so the frames after the rejected one are never submitted; a
primitive that logs every frame it is handed has logged exactly those `m+1`
frames, in order. The context is unchanged. -/
theorem can_write_stops_at_first_rejection (drv : can_driver_t Dev H)
    (frames : List can_frame_t) (size m : Nat) (f : can_frame_t) (hw : H)
    (hm : m < size) (hf : frames[m]? = some f)
    (hacc : chan_accepts drv.chout.write (frames.take m) hw = true)
    (hrej : (drv.chout.write f (chan_submit drv.chout.write (frames.take m) hw)).1 = false) :
    (can_write drv frames size hw).ret = (m : Int)
      ∧ (can_write drv frames size hw).hw
          = chan_submit drv.chout.write (frames.take (m + 1)) hw
      ∧ (can_write drv frames size hw).drv = drv
      ∧ ∀ log : H → List can_frame_t,
          (∀ g h, log (drv.chout.write g h).2 = log h ++ [g]) →
          log (can_write drv frames size hw).hw = log hw ++ frames.take (m + 1) := by
  obtain ⟨hsplit, hnext⟩ := take_split_at frames m size f hm hf
  have hloop : chan_write_loop drv.chout.write (frames.take size) 0 hw
      = (((0 + (frames.take m).length : Nat) : Int),
          (drv.chout.write f (chan_submit drv.chout.write (frames.take m) hw)).2) := by
    rw [hsplit]
    exact chan_write_loop_reject drv.chout.write f _ (frames.take m) 0 hw hacc hrej
  have hlen : (frames.take m).length = m := by
    have : m < frames.length := by
      rcases Nat.lt_or_ge m frames.length with h | h
      · exact h
      · rw [List.getElem?_eq_none h] at hf; cases hf
    rw [List.length_take]; omega
  have hsub : chan_submit drv.chout.write (frames.take (m + 1)) hw
      = (drv.chout.write f (chan_submit drv.chout.write (frames.take m) hw)).2 := by
    rw [hnext, chan_submit_append]; rfl
  have hhw : (can_write drv frames size hw).hw
      = chan_submit drv.chout.write (frames.take (m + 1)) hw := by
    show (chan_write_loop drv.chout.write (frames.take size) 0 hw).2 = _
    rw [hloop, hsub]
  refine ⟨?_, hhw, rfl, ?_⟩
  · show (chan_write_loop drv.chout.write (frames.take size) 0 hw).1 = _
    rw [hloop, hlen]; simp
  · intro log hlog
    rw [hhw]
    exact chan_submit_log drv.chout.write log hlog _ hw

/-- C3 on the started demo system, with room for two frames: of five frames submitted the
first two are accepted and the third is rejected; `can_write` returns 2 and
the primitive was offered the first three frames only. -/
theorem can_write_stops_at_first_rejection_witness :
    (can_write demo_started.drv demo_frames 5 demo_started.hw).ret = 2
      ∧ (can_write demo_started.drv demo_frames 5 demo_started.hw).hw
          = chan_submit demo_started.drv.chout.write (demo_frames.take 3) demo_started.hw
      ∧ (can_write demo_started.drv demo_frames 5 demo_started.hw).hw.offered
          = demo_started.hw.offered ++ demo_frames.take 3 :=
  ⟨(can_write_stops_at_first_rejection demo_started.drv demo_frames 5 2 (demo_frame 12)
      demo_started.hw (by decide) (by decide) (by decide) (by decide)).1,
    (can_write_stops_at_first_rejection demo_started.drv demo_frames 5 2 (demo_frame 12)
      demo_started.hw (by decide) (by decide) (by decide) (by decide)).2.1,
    (can_write_stops_at_first_rejection demo_started.drv demo_frames 5 2 (demo_frame 12)
      demo_started.hw (by decide) (by decide) (by decide) (by decide)).2.2.2
      (fun h => h.offered)
      (fun g h => by
        show (demo_write_cb g h).2.offered = h.offered ++ [g]
        unfold demo_write_cb; split <;> rfl)⟩

end claims3

section claims4
variable {Dev H : Type}

/-- C4: after `can_init` (with a port layer that leaves the freshly constructed
queue alone), when the frames `fs` are delivered to the producer interface and
they fit (no overflow), successive `can_read` calls of any sizes `ns` hand out
`fs` from the front, in the same order: all calls together return the first
`ns.sum` frames of `fs`, all of `fs` once enough was asked for, and nothing
was dropped. The same holds when deliveries and reads are interleaved in any
way `es` without an overflow: the frames read so far followed by the frames
still queued are exactly the frames delivered, in delivery order. -/
theorem can_read_fifo (P : can_port_i Dev H) (drv : can_driver_t Dev H) (dev : Dev)
    (speed rxbuf size : Nat) (hw : H) (fs : List can_frame_t) (ns : List Nat)
    (hport : (can_init P drv dev speed rxbuf size hw).drv.chin
      = queue_init P.frame_size rxbuf size)
    (hfit : fs.length ≤ size / P.frame_size) :
    (can_read_seq (can_deliver (can_init P drv dev speed rxbuf size hw).drv fs) ns).flatten
        = fs.take ns.sum
      ∧ (fs.length ≤ ns.sum →
          (can_read_seq (can_deliver (can_init P drv dev speed rxbuf size hw).drv fs)
            ns).flatten = fs)
      ∧ (can_read (can_deliver (can_init P drv dev speed rxbuf size hw).drv fs)
            fs.length).frames = fs
      ∧ (can_deliver (can_init P drv dev speed rxbuf size hw).drv fs).chin.dropped = 0
      ∧ ∀ es : List can_io,
          (can_io_run (can_init P drv dev speed rxbuf size hw).drv es).2.chin.dropped = 0 →
          (can_io_run (can_init P drv dev speed rxbuf size hw).drv es).1
              ++ queue_contents
                  (can_io_run (can_init P drv dev speed rxbuf size hw).drv es).2.chin
            = can_io_produced es := by
  have hwf : queue_wf (can_init P drv dev speed rxbuf size hw).drv.chin := by
    rw [hport]; exact queue_init_wf _ _ _
  have hc0 : queue_contents (can_init P drv dev speed rxbuf size hw).drv.chin = [] := by
    rw [hport]; exact queue_init_contents _ _ _
  have hcap : queue_capacity (can_init P drv dev speed rxbuf size hw).drv.chin
      - queue_used (can_init P drv dev speed rxbuf size hw).drv.chin
      = size / P.frame_size := by
    rw [hport]; simp [queue_capacity, queue_used, queue_init]
  have hd0 : (can_init P drv dev speed rxbuf size hw).drv.chin.dropped = 0 := by
    rw [hport]; rfl
  obtain ⟨hq, _, _⟩ := can_deliver_fields fs (can_init P drv dev speed rxbuf size hw).drv
  obtain ⟨d1, d2, _⟩ :=
    queue_deliver_spec fs (can_init P drv dev speed rxbuf size hw).drv.chin hwf
  rw [hc0, hcap, List.nil_append, List.take_of_length_le hfit] at d1
  rw [hcap, hd0] at d2
  have hall : (can_read_seq (can_deliver (can_init P drv dev speed rxbuf size hw).drv fs)
      ns).flatten = fs.take ns.sum := by
    rw [can_read_seq_flatten, hq, d1]
  refine ⟨hall, ?_, ?_, ?_, ?_⟩
  · intro hle
    rw [hall, List.take_of_length_le hle]
  · show (queue_read (can_deliver (can_init P drv dev speed rxbuf size hw).drv fs).chin
      fs.length).frames = fs
    rw [(queue_read_spec _ _).2.1, hq, d1, List.take_of_length_le (Nat.le_refl _)]
  · rw [hq, d2]; omega
  · intro es hes
    have h := can_io_run_fifo es (can_init P drv dev speed rxbuf size hw).drv hwf
      (by rw [hes, hd0])
    rw [hc0, List.nil_append] at h
    exact h

/-- C4 on the demo port: three frames delivered after `can_init` with a
four-frame buffer come back as one frame, then the other two. -/
theorem can_read_fifo_witness :
    (can_read_seq
        (can_deliver (can_init demo_port demo_drv0 7 500000 4096 64 demo_hw0).drv
          (demo_frames.take 3)) [1, 5]).flatten
      = (demo_frames.take 3).take ([1, 5] : List Nat).sum :=
  (can_read_fifo demo_port demo_drv0 7 500000 4096 64 demo_hw0 (demo_frames.take 3) [1, 5]
    (by decide) (by decide)).1

/-- C5: after init and start (with a port layer that leaves the freshly
constructed queue alone), when `C + k` frames are produced with no read in
between, where `C = size / frame_size` is the capacity, the queue retains
exactly the first `C` frames, `k` frames are dropped and the drop counter is
`k`; a read of up to `n` frames then returns the first `min n C` of them and
does not change the drop counter. -/
theorem can_queue_capacity (P : can_port_i Dev H) (s : can_system Dev H) (dev : Dev)
    (speed rxbuf size : Nat) (fs : List can_frame_t) (k : Nat)
    (hport : (sys_start P (sys_init P s dev speed rxbuf size)).drv.chin
      = queue_init P.frame_size rxbuf size)
    (hlen : fs.length = size / P.frame_size + k) :
    queue_contents (sys_rx (sys_start P (sys_init P s dev speed rxbuf size)) fs).drv.chin
        = fs.take (size / P.frame_size)
      ∧ queue_used (sys_rx (sys_start P (sys_init P s dev speed rxbuf size)) fs).drv.chin
        = size / P.frame_size
      ∧ (sys_rx (sys_start P (sys_init P s dev speed rxbuf size)) fs).drv.chin.dropped = k
      ∧ ∀ n : Nat,
          (can_read (sys_rx (sys_start P (sys_init P s dev speed rxbuf size)) fs).drv
              n).frames = (fs.take (size / P.frame_size)).take n
          ∧ (can_read (sys_rx (sys_start P (sys_init P s dev speed rxbuf size)) fs).drv
              n).ret = ((min n (size / P.frame_size) : Nat) : Int)
          ∧ (can_read (sys_rx (sys_start P (sys_init P s dev speed rxbuf size)) fs).drv
              n).drv.chin.dropped = k := by
  have hwf : queue_wf (sys_start P (sys_init P s dev speed rxbuf size)).drv.chin := by
    rw [hport]; exact queue_init_wf _ _ _
  have hc0 : queue_contents (sys_start P (sys_init P s dev speed rxbuf size)).drv.chin
      = [] := by
    rw [hport]; exact queue_init_contents _ _ _
  have hcap : queue_capacity (sys_start P (sys_init P s dev speed rxbuf size)).drv.chin
      - queue_used (sys_start P (sys_init P s dev speed rxbuf size)).drv.chin
      = size / P.frame_size := by
    rw [hport]; simp [queue_capacity, queue_used, queue_init]
  have hd0 : (sys_start P (sys_init P s dev speed rxbuf size)).drv.chin.dropped = 0 := by
    rw [hport]; rfl
  have hq : (sys_rx (sys_start P (sys_init P s dev speed rxbuf size)) fs).drv.chin
      = queue_deliver (sys_start P (sys_init P s dev speed rxbuf size)).drv.chin fs :=
    (can_deliver_fields fs (sys_start P (sys_init P s dev speed rxbuf size)).drv).1
  obtain ⟨d1, d2, _⟩ :=
    queue_deliver_spec fs (sys_start P (sys_init P s dev speed rxbuf size)).drv.chin hwf
  rw [hc0, hcap, List.nil_append] at d1
  rw [hcap, hd0] at d2
  have hused : queue_used
      (sys_rx (sys_start P (sys_init P s dev speed rxbuf size)) fs).drv.chin
      = size / P.frame_size := by
    rw [← queue_contents_length, hq, d1, List.length_take]; omega
  have hdrop : (sys_rx (sys_start P (sys_init P s dev speed rxbuf size)) fs).drv.chin.dropped
      = k := by
    rw [hq, d2]; omega
  refine ⟨by rw [hq, d1], hused, hdrop, ?_⟩
  intro n
  obtain ⟨r1, r2, r3⟩ := queue_read_spec n
    (sys_rx (sys_start P (sys_init P s dev speed rxbuf size)) fs).drv.chin
  refine ⟨?_, ?_, ?_⟩
  · show (queue_read _ n).frames = _
    rw [r2, hq, d1]
  · show (queue_read _ n).ret = _
    rw [r1, hused]
  · show (queue_read _ n).queue.dropped = _
    rw [r3]; exact hdrop

/-- C5, the scenario on the demo port: a buffer for four frames, started, the
frames A, B, C, D, E injected; a read of up to 10 frames returns A, B, C, D
(count 4) and the drop counter is 1. -/
theorem can_queue_capacity_witness :
    (can_read demo_sys1.drv 10).frames
        = [demo_frame 10, demo_frame 11, demo_frame 12, demo_frame 13]
      ∧ (can_read demo_sys1.drv 10).ret = 4
      ∧ demo_sys1.drv.chin.dropped = 1
      ∧ (can_read demo_sys1.drv 10).drv.chin.dropped = 1 :=
  ⟨((can_queue_capacity demo_port demo_sys0 7 500000 4096 64 demo_frames 1
      (by decide) (by decide)).2.2.2 10).1,
    ((can_queue_capacity demo_port demo_sys0 7 500000 4096 64 demo_frames 1
      (by decide) (by decide)).2.2.2 10).2.1,
    (can_queue_capacity demo_port demo_sys0 7 500000 4096 64 demo_frames 1
      (by decide) (by decide)).2.2.1,
    ((can_queue_capacity demo_port demo_sys0 7 500000 4096 64 demo_frames 1
      (by decide) (by decide)).2.2.2 10).2.2⟩

end claims4

section claims5
variable {Dev H : Type}

/-- C8: assume the port layer's stop is idempotent: `can_port_stop` applied to
what a `can_port_stop` left returns 0 and changes nothing. Then on a `Started`
context the second of two successive `can_stop` calls returns 0 and leaves
context and hardware exactly as the first call left them, and the lifecycle
state is `Stopped` after the first call and after the second. -/
theorem can_stop_twice (P : can_port_i Dev H) (s : can_system Dev H)
    (hstarted : s.state = lifecycle_t.Started)
    (hidem : ∀ (d : can_driver_t Dev H) (h : H),
      P.can_port_stop (P.can_port_stop d h).drv (P.can_port_stop d h).hw
        = { ret := 0, drv := (P.can_port_stop d h).drv, hw := (P.can_port_stop d h).hw }) :
    (can_stop P (sys_stop P s).drv (sys_stop P s).hw).ret = 0
      ∧ (can_stop P (sys_stop P s).drv (sys_stop P s).hw).drv = (sys_stop P s).drv
      ∧ (can_stop P (sys_stop P s).drv (sys_stop P s).hw).hw = (sys_stop P s).hw
      ∧ (sys_stop P s).state = lifecycle_t.Stopped
      ∧ (sys_stop P (sys_stop P s)).state = lifecycle_t.Stopped
      ∧ sys_stop P (sys_stop P s) = sys_stop P s := by
  have hst : s.state = lifecycle_t.Started := hstarted
  have h2 : can_stop P (sys_stop P s).drv (sys_stop P s).hw
      = { ret := 0, drv := (sys_stop P s).drv, hw := (sys_stop P s).hw } :=
    hidem s.drv s.hw
  refine ⟨by rw [h2], by rw [h2], by rw [h2], rfl, rfl, ?_⟩
  show ({ drv := (can_stop P (sys_stop P s).drv (sys_stop P s).hw).drv,
          hw := (can_stop P (sys_stop P s).drv (sys_stop P s).hw).hw,
          state := lifecycle_t.Stopped } : can_system Dev H) = sys_stop P s
  rw [h2]
  rfl

/-- C8 on the port with the idempotent stop: the system is initialised and
started, then stopped twice. -/
theorem can_stop_twice_witness :
    (sys_start quiet_port (sys_init quiet_port demo_sys0 7 500000 4096 64)).state
        = lifecycle_t.Started
      ∧ (can_stop quiet_port
          (sys_stop quiet_port
            (sys_start quiet_port (sys_init quiet_port demo_sys0 7 500000 4096 64))).drv
          (sys_stop quiet_port
            (sys_start quiet_port (sys_init quiet_port demo_sys0 7 500000 4096 64))).hw).ret
        = 0
      ∧ (sys_stop quiet_port (sys_stop quiet_port
          (sys_start quiet_port (sys_init quiet_port demo_sys0 7 500000 4096 64)))).state
        = lifecycle_t.Stopped :=
  ⟨by decide,
    (can_stop_twice quiet_port
      (sys_start quiet_port (sys_init quiet_port demo_sys0 7 500000 4096 64))
      (by decide) (fun _ _ => rfl)).1,
    (can_stop_twice quiet_port
      (sys_start quiet_port (sys_init quiet_port demo_sys0 7 500000 4096 64))
      (by decide) (fun _ _ => rfl)).2.2.2.2.1⟩

/-- C9: `can_read` with the size `max_frames` copies out the oldest
`min max_frames queued` frames of the receive queue, in queue order, and
returns that number: never more than `max_frames`, never more than what is
queued, 0 on an empty queue; the frames copied leave the queue and the rest
stays queued. Size and result count frames. -/
theorem can_read_count (drv : can_driver_t Dev H) (max_frames : Nat) :
    (can_read drv max_frames).ret = ((min max_frames (queue_used drv.chin) : Nat) : Int)
      ∧ (can_read drv max_frames).frames.length = min max_frames (queue_used drv.chin)
      ∧ (can_read drv max_frames).frames = (queue_contents drv.chin).take max_frames
      ∧ ((can_read drv max_frames).frames.length : Int) = (can_read drv max_frames).ret
      ∧ (can_read drv max_frames).frames.length ≤ max_frames
      ∧ (queue_used drv.chin = 0 →
          (can_read drv max_frames).ret = 0 ∧ (can_read drv max_frames).frames = [])
      ∧ queue_contents (can_read drv max_frames).drv.chin
          = (queue_contents drv.chin).drop max_frames
      ∧ queue_used (can_read drv max_frames).drv.chin
          = queue_used drv.chin - min max_frames (queue_used drv.chin) := by
  obtain ⟨r1, r2, r3⟩ := queue_read_spec max_frames drv.chin
  have hret : (can_read drv max_frames).ret
      = ((min max_frames (queue_used drv.chin) : Nat) : Int) := r1
  have hfr : (can_read drv max_frames).frames = (queue_contents drv.chin).take max_frames :=
    r2
  have hlen : (can_read drv max_frames).frames.length
      = min max_frames (queue_used drv.chin) := by
    rw [hfr, List.length_take, queue_contents_length]
  have hq : (can_read drv max_frames).drv.chin
      = { drv.chin with head := drv.chin.head + min max_frames (queue_used drv.chin) } := r3
  refine ⟨hret, hlen, hfr, by rw [hlen, hret], ?_, ?_, queue_read_rest drv.chin max_frames, ?_⟩
  · rw [hlen]; exact Nat.min_le_left _ _
  · intro h0
    constructor
    · rw [hret, h0]; simp
    · have : (can_read drv max_frames).frames.length = 0 := by rw [hlen, h0]; simp
      exact List.length_eq_zero.mp this
  · rw [hq]; simp only [queue_used]; omega

/-- C10: `can_read` leaves the device reference and the transmit channel as
they were, and what it returns, copies out and leaves in the queue is the same
whatever device reference and channel the context holds. `can_write` leaves
the device reference and the receive queue as they were, and what it returns
and does to the hardware behind the channel is the same whatever device
reference and queue the context holds. -/
theorem can_data_path_frame (drv : can_driver_t Dev H) (frames : List can_frame_t)
    (size : Nat) (hw : H) :
    (can_read drv size).drv.dev_p = drv.dev_p
      ∧ (can_read drv size).drv.chout = drv.chout
      ∧ (∀ (dev : Dev) (ch : chan_t H),
          (can_read { dev_p := dev, chout := ch, chin := drv.chin } size).ret
              = (can_read drv size).ret
            ∧ (can_read { dev_p := dev, chout := ch, chin := drv.chin } size).frames
              = (can_read drv size).frames
            ∧ (can_read { dev_p := dev, chout := ch, chin := drv.chin } size).drv.chin
              = (can_read drv size).drv.chin)
      ∧ (can_write drv frames size hw).drv.dev_p = drv.dev_p
      ∧ (can_write drv frames size hw).drv.chin = drv.chin
      ∧ (can_write drv frames size hw).drv.chout = drv.chout
      ∧ (∀ (dev : Dev) (q : queue_t),
          (can_write { dev_p := dev, chout := drv.chout, chin := q } frames size hw).ret
              = (can_write drv frames size hw).ret
            ∧ (can_write { dev_p := dev, chout := drv.chout, chin := q } frames size hw).hw
              = (can_write drv frames size hw).hw) :=
  ⟨rfl, rfl, fun _ _ => ⟨rfl, rfl, rfl⟩, rfl, rfl, rfl, fun _ _ => ⟨rfl, rfl⟩⟩

end claims5

end Simba
